import Mathlib

/-!
# Verification of `src/tree.ts` (references-view)

A shallow embedding of the reference-view tree module: the
`TreeDataProviderDelegate`, the `SymbolsTree` controller and the
`TreeInputHistory` store, together with proofs of the specified
properties.

JavaScript's event loop is single-threaded and cooperative, so the
program is modelled as pure state-transition functions: the synchronous
body of each method is one function on the state, and every `.then` /
`.catch` continuation is a separate function that the event loop may
apply later.  Promise object identity (the `this.provider === provider`
and `this._input !== input` checks in the source) is modelled by tagging
every created promise with a fresh natural number drawn from a counter
threaded through the controller state.
-/

namespace RefsView

/-- A position in a document (line, character), mirroring `vscode.Position`. -/
abbrev Pos := Nat × Nat

/-- A range in a document (start, end), mirroring `vscode.Range`. -/
abbrev Range := Pos × Pos

/-- Embedding of the `SymbolTreeInput` interface (tree.ts, lines 81-87).
`resolve()` is asynchronous, so it appears as a scheduler event rather
than a field; `id` stands for the JavaScript object identity of the
input, and `hash` is the result of the `hash()` method. -/
structure SymbolTreeInput where
  id : Nat
  title : String
  uri : String
  position : Pos
  hash : String
deriving DecidableEq, Repr

/-- What a provider promise handed to `TreeDataProviderDelegate.update`
eventually resolves to: either the `TreeInputHistory` store (from
`clearInput`, line 173) or the provider of an input's resolved model
(from `setInput`, line 137). -/
inductive PTarget where
  | history
  | modelProvider (input : SymbolTreeInput)
deriving DecidableEq, Repr

/-- Embedding of the state of `TreeDataProviderDelegate`
(tree.ts, lines 14-62).  `provider` holds the identity of the currently
stored provider promise together with its eventual target;
`sessionDispoables` holds the subscription made by a successful
resolution (tagged by the promise that produced it); `onDidChange` is
the identity of the single `vscode.EventEmitter` created at
construction (line 19). -/
structure Delegate where
  provider : Option (Nat × PTarget)
  sessionDispoables : Option Nat
  onDidChange : Nat
  fireCount : Nat
deriving DecidableEq, Repr

/-- Line 21, `readonly onDidChangeTreeData = this._onDidChange.event`:
the change-notification identity the delegate exposes to the host view. -/
def Delegate.onDidChangeTreeData (d : Delegate) : Nat :=
  d.onDidChange

/-- A freshly constructed delegate: no provider, no session subscription. -/
def initDelegate : Delegate :=
  { provider := none, sessionDispoables := none, onDidChange := 0, fireCount := 0 }

/-- Synchronous body of `TreeDataProviderDelegate.update` (lines 23-31):
dispose the previous session subscription, fire a root change through
the fixed emitter, store the new pending provider. -/
def delegateUpdate (p : Nat × PTarget) (d : Delegate) : Delegate :=
  { d with
    sessionDispoables := none
    fireCount := d.fireCount + 1
    provider := some p }

/-- Continuation attached by `update` for the success of promise `p`
(lines 32-35): only if `this.provider === provider` still holds does it
store the subscription to the resolved provider's change event. -/
def delegateResolveOk (p : Nat × PTarget) (d : Delegate) : Delegate :=
  if d.provider = some p then { d with sessionDispoables := some p.1 } else d

/-- Continuation attached by `update` for the failure of promise `p`
(lines 36-39): it clears the stored provider unconditionally (no
"still current" check) and logs the error. -/
def delegateResolveErr (_p : Nat × PTarget) (d : Delegate) : Delegate :=
  { d with provider := none }

/-- One event in the life of a delegate: an `update` call, or the
settling of one of the provider promises handed to a previous `update`. -/
inductive DelegateEvent where
  | update (p : Nat × PTarget)
  | resolveOk (p : Nat × PTarget)
  | resolveErr (p : Nat × PTarget)
deriving DecidableEq, Repr

/-- Event-loop step of the delegate. -/
def delegateStep (d : Delegate) (e : DelegateEvent) : Delegate :=
  match e with
  | .update p => delegateUpdate p d
  | .resolveOk p => delegateResolveOk p d
  | .resolveErr p => delegateResolveErr p d

/-- Embedding of `getTreeItem` (lines 42-45): `_assertProvider` throws
`MISSING provider` when no provider is stored; otherwise the call awaits
the stored promise and forwards to it (modelled by returning the awaited
promise). -/
def delegateGetTreeItem (d : Delegate) : Except String (Nat × PTarget) :=
  match d.provider with
  | none => .error "MISSING provider"
  | some p => .ok p

/-- Embedding of `getChildren` (lines 47-50), same assert-then-forward shape. -/
def delegateGetChildren (d : Delegate) : Except String (Nat × PTarget) :=
  match d.provider with
  | none => .error "MISSING provider"
  | some p => .ok p

/-- Embedding of `getParent` (lines 52-55), same assert-then-forward shape. -/
def delegateGetParent (d : Delegate) : Except String (Nat × PTarget) :=
  match d.provider with
  | none => .error "MISSING provider"
  | some p => .ok p

/-! ## History store -/

/-- Embedding of a `HistoryItem` (tree.ts, lines 182-188): the captured
word, the anchor (modelled by the position it was created at) and the
originating input. -/
structure HistoryItem where
  word : String
  anchorPos : Pos
  input : SymbolTreeInput
deriving DecidableEq, Repr

/-- The settlement state of the `Thenable<HistoryItem>` stored in the
history map: still pending, fulfilled with an item, or rejected
(document open or word lookup failed). -/
inductive HEntryState where
  | pending
  | fulfilled (item : HistoryItem)
  | rejected
deriving DecidableEq, Repr

def HEntryState.isRejected : HEntryState → Bool
  | .rejected => true
  | _ => false

def HEntryState.isPending : HEntryState → Bool
  | .pending => true
  | _ => false

def HEntryState.item? : HEntryState → Option HistoryItem
  | .fulfilled it => some it
  | _ => none

/-- One value of the history map `_inputs : Map<string, Thenable<HistoryItem>>`
(line 196): the promise identity plus its settlement state. -/
structure HEntry where
  pid : Nat
  state : HEntryState
deriving DecidableEq, Repr

/-- The history map itself, as an insertion-ordered association list
(oldest first), the order a JavaScript `Map` iterates in. -/
abbrev HistoryMap := List (String × HEntry)

/-- Embedding of `Map.delete(key)`: remove the entry stored under `key`.  A `Map`
never holds two entries with one key, so removing every occurrence
coincides with removing the single one on every reachable state. -/
def historyDelete (key : String) : HistoryMap → HistoryMap
  | [] => []
  | kv :: rest =>
    if kv.1 = key then historyDelete key rest
    else kv :: historyDelete key rest

/-- Synchronous part of `TreeInputHistory.add` (lines 224-227):
`this._inputs.delete(key); this._inputs.set(key, p)` — delete the stale
entry for the key, then append the new (still pending) one as newest. -/
def historyAddEntry (key : String) (e : HEntry) (h : HistoryMap) : HistoryMap :=
  historyDelete key h ++ [(key, e)]

/-- Settling of the document-open promise created by `add`: the entry
whose promise is `pid`, if still pending, becomes `outcome`.  Entries
are never removed by settling. -/
def histSettle (pid : Nat) (outcome : HEntryState) (h : HistoryMap) : HistoryMap :=
  h.map fun kv =>
    if kv.2.pid = pid ∧ kv.2.state.isPending then (kv.1, ⟨kv.2.pid, outcome⟩) else kv

/-- Result of `Promise.all` over the history values: rejected as soon as
any input promise is rejected; pending while none is rejected and some
is unsettled; otherwise fulfilled with the items in order. -/
inductive PromiseAllResult where
  | pending
  | rejected
  | fulfilled (items : List HistoryItem)
deriving DecidableEq, Repr

def promiseAll (es : List HEntry) : PromiseAllResult :=
  if es.any (fun e => e.state.isRejected) then .rejected
  else if es.any (fun e => e.state.isPending) then .pending
  else .fulfilled (es.filterMap (fun e => e.state.item?))

/-- Embedding of `TreeInputHistory.getChildren` (lines 252-254):
`Promise.all([...this._inputs.values()].reverse())` — all entries,
most recently inserted first. -/
def historyGetChildren (h : HistoryMap) : PromiseAllResult :=
  promiseAll ((h.map Prod.snd).reverse)

/-- Embedding of `get size` (lines 237-239). -/
def historySize (h : HistoryMap) : Nat :=
  h.length

/-! ## Word extraction (the continuation inside `add`, lines 217-222) -/

/-- The document capabilities `add` uses, mirroring
`vscode.TextDocument`: the default word range at a position, the word
range with the explicit non-whitespace pattern `/[^\s]+/`, and text
extraction. -/
structure TextDocument where
  getWordRangeAtPosition : Pos → Option Range
  getWordRangeAtPositionNonWs : Pos → Option Range
  getText : Range → String

/-- Lines 219-220: `const range = doc.getWordRangeAtPosition(p) ?? doc.getWordRangeAtPosition(p, /[^\s]+/);`
`const word = range ? doc.getText(range) : '???';` (lines 219-220). -/
def histWord (doc : TextDocument) (pos : Pos) : String :=
  let range :=
    match doc.getWordRangeAtPosition pos with
    | some r => some r
    | none => doc.getWordRangeAtPositionNonWs pos
  match range with
  | some r => doc.getText r
  | none => "???"

/-- The `HistoryItem` built once the document for `input.uri` is open
(lines 217-221). -/
def historyResolve (doc : TextDocument) (input : SymbolTreeInput) : HistoryItem :=
  { word := histWord doc input.position
    anchorPos := input.position
    input := input }

/-! ## The `SymbolsTree` controller (tree.ts, lines 89-178) -/

/-- The session disposable assembled at the end of a successful
resolution (lines 154-164): the subscription to the model provider's
change event (tagged by the provider's identity) and, when the provider
exposes a `dispose` function, the provider's own disposal chained in. -/
structure SessionDisp where
  provider : Nat
  includesProviderDispose : Bool
deriving DecidableEq, Repr

/-- Embedding of a resolved `SymbolTreeModel` (lines 74-79): optional
message, the provider (by identity), the optional navigation capability
(only `nearest` is consumed by this file), and whether the provider has
a `dispose` function. -/
structure SymbolTreeModel where
  message : Option String
  provider : Nat
  nearest : Option (String → Pos → Option Nat)
  providerHasDispose : Bool

/-- The state owned by one `SymbolsTree` together with the host-visible
state it mutates.  Context keys start unset (`none`); `nextId` is the
fresh-identity counter for created promises; `disposedSessions` logs
each `dispose()` call made on a session disposable; `reveals` logs
`this._tree.reveal(...)` calls; `focusRequests` counts the
`references-view.tree.focus` commands. -/
structure Ctrl where
  nextId : Nat
  history : HistoryMap
  ctxIsActive : Option Bool
  ctxHasResult : Option Bool
  ctxHasHistory : Option Bool
  input : Option SymbolTreeInput
  sessionDisposable : Option SessionDisp
  disposedSessions : List SessionDisp
  treeTitle : Option String
  treeMessage : Option String
  treeVisible : Bool
  reveals : List Nat
  focusRequests : Nat
  delegate : Delegate
deriving DecidableEq, Repr

/-- A freshly constructed controller: empty history, unset context
keys, no input, fresh tree view (no title or message yet), the delegate
as built by its constructor. -/
def initCtrl : Ctrl :=
  { nextId := 0
    history := []
    ctxIsActive := none
    ctxHasResult := none
    ctxHasHistory := none
    input := none
    sessionDisposable := none
    disposedSessions := []
    treeTitle := none
    treeMessage := none
    treeVisible := false
    reveals := []
    focusRequests := 0
    delegate := initDelegate }

/-- Line 130, `this._sessionDisposable?.dispose()`: calling `dispose`
is logged (no call happens when the field is `undefined`); the field
itself is not cleared by the call. -/
def disposeSession (s : Ctrl) : Ctrl :=
  { s with disposedSessions := s.disposedSessions ++ s.sessionDisposable.toList }

/-- Embedding of `getInput` (lines 118-120). -/
def getInput (s : Ctrl) : Option SymbolTreeInput :=
  s.input

/-- Synchronous body of `setInput` (lines 122-137), in source order:
history add (which also sets the `hasHistory` context key, line 228),
context keys, focus request, store the input, dispose the previous
session, title and message, start `input.resolve()` (a fresh promise),
and repoint the delegate at `model.then(model => model.provider)`
(another fresh promise).  The `model.then(...)` continuation of
lines 139-165 is `setInputCont` below. -/
def setInput (x : SymbolTreeInput) (s : Ctrl) : Ctrl :=
  let histPid := s.nextId
  let s := { s with
    history := historyAddEntry x.hash ⟨histPid, .pending⟩ s.history
    ctxHasHistory := some true
    nextId := s.nextId + 1 }
  let s := { s with ctxIsActive := some true, ctxHasResult := some true }
  let s := { s with focusRequests := s.focusRequests + 1 }
  let s := { s with input := some x }
  let s := disposeSession s
  let s := { s with treeTitle := some x.title, treeMessage := none }
  let provPid := s.nextId
  { s with
    nextId := s.nextId + 1
    delegate := delegateUpdate (provPid, .modelProvider x) s.delegate }

/-- The `model.then(model => { ... })` continuation of `setInput`
(lines 139-165), run when input `x`'s resolution fulfills with model
`m`: if `this._input !== input` the whole continuation is a no-op;
otherwise it sets title and message, reveals the nearest item when one
is found and the view is visible, and installs the session disposable
(change listener plus optional provider disposal). -/
def setInputCont (x : SymbolTreeInput) (m : SymbolTreeModel) (s : Ctrl) : Ctrl :=
  if s.input ≠ some x then s
  else
    let s := { s with treeTitle := some x.title, treeMessage := m.message }
    let selection :=
      match m.nearest with
      | some nearest => nearest x.uri x.position
      | none => none
    let s :=
      match selection with
      | some sel => if s.treeVisible then { s with reveals := s.reveals ++ [sel] } else s
      | none => s
    { s with
      sessionDisposable :=
        some { provider := m.provider, includesProviderDispose := m.providerHasDispose } }

/-- Embedding of `clearInput` (lines 168-177): drop the input, clear the result
flag, reset title and message, repoint the delegate at a fresh
`Promise.resolve(this._history)`, and show the empty-state message when
the history is empty.  Note the source never touches
`_sessionDisposable` here. -/
def clearInput (s : Ctrl) : Ctrl :=
  let s := { s with
    input := none
    ctxHasResult := some false
    treeTitle := some "References"
    treeMessage := none }
  let pid := s.nextId
  let s := { s with
    nextId := s.nextId + 1
    delegate := delegateUpdate (pid, .history) s.delegate }
  if historySize s.history = 0 then { s with treeMessage := some "Nothing to show" } else s

/-- Embedding of `TreeInputHistory.clear` (lines 231-235). -/
def historyClear (s : Ctrl) : Ctrl :=
  { s with history := [], ctxHasHistory := some false }

/-- The events that can act on a controller: its two public mutating
operations (`setInput` also stands for the `references-view.refind`
command, `clearInput` for `references-view.clear`), the history-clear
command, the fulfilling of an input's resolution, the settling of a
history document-open promise, and the settling of a provider promise
inside the delegate. -/
inductive CtrlEvent where
  | setInput (x : SymbolTreeInput)
  | clearInput
  | historyClear
  | resolveModel (x : SymbolTreeInput) (m : SymbolTreeModel)
  | histSettle (pid : Nat) (outcome : HEntryState)
  | delegateSettleOk (p : Nat × PTarget)
  | delegateSettleErr (p : Nat × PTarget)

/-- Event-loop step of the whole controller. -/
def ctrlStep (s : Ctrl) (e : CtrlEvent) : Ctrl :=
  match e with
  | .setInput x => setInput x s
  | .clearInput => clearInput s
  | .historyClear => historyClear s
  | .resolveModel x m => setInputCont x m s
  | .histSettle pid outcome => { s with history := histSettle pid outcome s.history }
  | .delegateSettleOk p => { s with delegate := delegateResolveOk p s.delegate }
  | .delegateSettleErr p => { s with delegate := delegateResolveErr p s.delegate }

/-! ## Derived definitions and concrete fixtures -/

/-- A delegate run from construction through a sequence of events. -/
def runDelegate (tr : List DelegateEvent) : Delegate :=
  tr.foldl delegateStep initDelegate

/-- One step of the "is the stored provider cleared?" abstraction:
`update` stores a provider, a rejection clears it, a successful
resolution leaves the field as it was. -/
def clearStep (b : Bool) (e : DelegateEvent) : Bool :=
  match e with
  | .update _ => false
  | .resolveErr _ => true
  | .resolveOk _ => b

/-- No provider is stored exactly when `update` was never called or
some pending provider's rejection settled after the most recent
`update` call. -/
def providerCleared (tr : List DelegateEvent) : Bool :=
  tr.foldl clearStep true

/-- A sequence of `add` calls folded over a history map. -/
def historyAddAll (h : HistoryMap) (adds : List (String × HEntry)) : HistoryMap :=
  adds.foldl (fun acc ke => historyAddEntry ke.1 ke.2 acc) h

/-- Concrete fixtures used by witnesses and evaluations. -/
def inputA : SymbolTreeInput :=
  { id := 0, title := "Calls", uri := "a.ts", position := (1, 2), hash := "ha" }

def inputB : SymbolTreeInput :=
  { id := 1, title := "References", uri := "b.ts", position := (3, 4), hash := "hb" }

def modelA : SymbolTreeModel :=
  { message := some "2 results", provider := 7, nearest := none, providerHasDispose := true }

def modelB : SymbolTreeModel :=
  { message := some "5 results", provider := 9, nearest := none, providerHasDispose := false }

/-- A document with a default word at every position. -/
def docWord : TextDocument :=
  { getWordRangeAtPosition := fun _ => some ((0, 0), (0, 3))
    getWordRangeAtPositionNonWs := fun _ => none
    getText := fun _ => "foo" }

/-- A document with no default word but a non-whitespace run. -/
def docRun : TextDocument :=
  { getWordRangeAtPosition := fun _ => none
    getWordRangeAtPositionNonWs := fun _ => some ((0, 0), (0, 3))
    getText := fun _ => "a+b" }

/-- A document with only whitespace at every position. -/
def docWs : TextDocument :=
  { getWordRangeAtPosition := fun _ => none
    getWordRangeAtPositionNonWs := fun _ => none
    getText := fun _ => " " }

/-! ## Delegate theorems -/

theorem delegateStep_onDidChange (d : Delegate) (e : DelegateEvent) :
    (delegateStep d e).onDidChange = d.onDidChange := by
  cases e with
  | update p => rfl
  | resolveOk p =>
    simp only [delegateStep, delegateResolveOk]
    split <;> rfl
  | resolveErr p => rfl

/-- Claim C3: across every sequence of delegate events — in particular
across every sequence of `update()` calls — the change-notification
identity (`onDidChangeTreeData`) the delegate exposes to the host view
is the one fixed at construction; only the backing `provider` field is
swapped. -/
theorem claim_C3_delegate_identity_stable (d : Delegate) (tr : List DelegateEvent) :
    (tr.foldl delegateStep d).onDidChangeTreeData = d.onDidChangeTreeData := by
  induction tr generalizing d with
  | nil => rfl
  | cons e tr ih =>
    rw [List.foldl_cons, ih]
    exact delegateStep_onDidChange d e

/-- Claim C8: after `update(P1)` then `update(P2)`, the rejection of P1
clears the stored provider unconditionally — whether P2 is still
pending or has already resolved successfully — so every subsequent
accessor fails with the missing-provider error even though the most
recent update's provider did not fail. -/
theorem claim_C8_stale_rejection_clobbers (d : Delegate) (p1 p2 : Nat × PTarget) :
    (delegateStep (delegateStep (delegateStep d (.update p1)) (.update p2))
        (.resolveErr p1)).provider = none ∧
    delegateGetTreeItem (delegateStep (delegateStep (delegateStep d (.update p1))
        (.update p2)) (.resolveErr p1)) = .error "MISSING provider" ∧
    delegateGetChildren (delegateStep (delegateStep (delegateStep d (.update p1))
        (.update p2)) (.resolveErr p1)) = .error "MISSING provider" ∧
    delegateGetParent (delegateStep (delegateStep (delegateStep d (.update p1))
        (.update p2)) (.resolveErr p1)) = .error "MISSING provider" ∧
    (delegateStep (delegateStep (delegateStep (delegateStep d (.update p1))
        (.update p2)) (.resolveOk p2)) (.resolveErr p1)).provider = none ∧
    delegateGetChildren (delegateStep (delegateStep (delegateStep (delegateStep d
        (.update p1)) (.update p2)) (.resolveOk p2)) (.resolveErr p1))
      = .error "MISSING provider" := by
  refine ⟨rfl, rfl, rfl, rfl, rfl, rfl⟩

/-- Claim C4 counterexample: in the trace
`update(0); update(1); reject(0)` the accessor fails with the
missing-provider error, yet `update` was called (twice, the most recent
storing promise 1) and promise 1 — the most recent pending provider —
never rejected.  This refutes the claim's characterisation "update()
was never called, or the most recent pending provider's resolution
failed". -/
theorem claim_C4_counterexample :
    delegateGetChildren (runDelegate
        [.update (0, .history), .update (1, .history), .resolveErr (0, .history)])
      = .error "MISSING provider" ∧
    ([DelegateEvent.update (0, .history), .update (1, .history),
        .resolveErr (0, .history)].filter
        (fun e => match e with | .update _ => true | _ => false))
      = [.update (0, .history), .update (1, .history)] ∧
    ([DelegateEvent.update (0, .history), .update (1, .history),
        .resolveErr (0, .history)].filter
        (fun e => match e with | .resolveErr q => q.1 == 1 | _ => false))
      = [] := by
  exact ⟨rfl, by decide, by decide⟩

theorem delegateStep_provider_isNone (tr : List DelegateEvent) (d : Delegate) :
    (tr.foldl delegateStep d).provider.isNone = tr.foldl clearStep d.provider.isNone := by
  induction tr generalizing d with
  | nil => rfl
  | cons e tr ih =>
    rw [List.foldl_cons, List.foldl_cons, ih]
    congr 1
    cases e with
    | update p => rfl
    | resolveOk p =>
      simp only [delegateStep, delegateResolveOk, clearStep]
      split <;> rfl
    | resolveErr p => rfl

/-- Claim C4, amended: each accessor fails with the missing-provider
error exactly when no provider is stored; no provider is stored exactly
when `update` was never called or some pending provider's rejection
settled after the most recent `update` call (each rejection clears the
stored provider unconditionally); otherwise the accessor forwards to
the stored (awaited) provider promise. -/
theorem claim_C4_missing_provider (tr : List DelegateEvent) :
    (delegateGetTreeItem (runDelegate tr) = .error "MISSING provider" ↔
      (runDelegate tr).provider = none) ∧
    (delegateGetChildren (runDelegate tr) = .error "MISSING provider" ↔
      (runDelegate tr).provider = none) ∧
    (delegateGetParent (runDelegate tr) = .error "MISSING provider" ↔
      (runDelegate tr).provider = none) ∧
    ((runDelegate tr).provider = none ↔ providerCleared tr = true) ∧
    (∀ p, (runDelegate tr).provider = some p →
      delegateGetTreeItem (runDelegate tr) = .ok p ∧
      delegateGetChildren (runDelegate tr) = .ok p ∧
      delegateGetParent (runDelegate tr) = .ok p) := by
  have herr : ∀ d : Delegate, d.provider = none →
      delegateGetTreeItem d = .error "MISSING provider" ∧
      delegateGetChildren d = .error "MISSING provider" ∧
      delegateGetParent d = .error "MISSING provider" := by
    intro d h
    simp [delegateGetTreeItem, delegateGetChildren, delegateGetParent, h]
  have hok : ∀ (d : Delegate) (p : Nat × PTarget), d.provider = some p →
      delegateGetTreeItem d = .ok p ∧
      delegateGetChildren d = .ok p ∧
      delegateGetParent d = .ok p := by
    intro d p h
    simp [delegateGetTreeItem, delegateGetChildren, delegateGetParent, h]
  have hiff : ∀ d : Delegate,
      (delegateGetTreeItem d = .error "MISSING provider" ↔ d.provider = none) ∧
      (delegateGetChildren d = .error "MISSING provider" ↔ d.provider = none) ∧
      (delegateGetParent d = .error "MISSING provider" ↔ d.provider = none) := by
    intro d
    cases h : d.provider with
    | none => simp [delegateGetTreeItem, delegateGetChildren, delegateGetParent, h]
    | some p => simp [delegateGetTreeItem, delegateGetChildren, delegateGetParent, h]
  refine ⟨(hiff _).1, (hiff _).2.1, (hiff _).2.2, ?_, fun p hp => hok _ p hp⟩
  have key : (runDelegate tr).provider.isNone = providerCleared tr := by
    have h0 := delegateStep_provider_isNone tr initDelegate
    simpa [runDelegate, providerCleared, initDelegate] using h0
  constructor
  · intro h
    rw [← key]
    simp [h]
  · intro h
    have h1 : (runDelegate tr).provider.isNone = true := by
      rw [key]
      exact h
    exact Option.isNone_iff_eq_none.mp h1

/-- Witness for the amended C4: with no event the accessors fail with
the missing-provider error; after one `update` the accessors forward to
the stored promise. -/
theorem claim_C4_missing_provider_witness :
    delegateGetTreeItem (runDelegate []) = .error "MISSING provider" ∧
    delegateGetChildren (runDelegate [.update (5, .history)]) = .ok (5, .history) := by
  constructor
  · exact (claim_C4_missing_provider []).1.mpr rfl
  · exact ((claim_C4_missing_provider [.update (5, .history)]).2.2.2.2 (5, .history) rfl).2.1

/-! ## Controller lemmas and theorems -/

theorem setInput_input (x : SymbolTreeInput) (s : Ctrl) :
    (setInput x s).input = some x := rfl

theorem setInput_treeTitle (x : SymbolTreeInput) (s : Ctrl) :
    (setInput x s).treeTitle = some x.title := rfl

theorem setInput_treeMessage (x : SymbolTreeInput) (s : Ctrl) :
    (setInput x s).treeMessage = none := rfl

theorem setInput_ctxIsActive (x : SymbolTreeInput) (s : Ctrl) :
    (setInput x s).ctxIsActive = some true := rfl

/-- A superseded resolution's continuation is a no-op: nothing in the
state changes when the input it resolved is no longer current. -/
theorem setInputCont_stale (x : SymbolTreeInput) (m : SymbolTreeModel) (s : Ctrl)
    (h : s.input ≠ some x) : setInputCont x m s = s := by
  unfold setInputCont
  rw [if_pos h]

theorem setInputCont_input (x : SymbolTreeInput) (m : SymbolTreeModel) (s : Ctrl) :
    (setInputCont x m s).input = s.input := by
  unfold setInputCont
  split
  · rfl
  · dsimp only
    split
    · split <;> rfl
    · rfl

theorem setInputCont_ctxIsActive (x : SymbolTreeInput) (m : SymbolTreeModel) (s : Ctrl) :
    (setInputCont x m s).ctxIsActive = s.ctxIsActive := by
  unfold setInputCont
  split
  · rfl
  · dsimp only
    split
    · split <;> rfl
    · rfl

/-- When the resolved input is still current, the continuation applies
its effects: title, message and the session disposable. -/
theorem setInputCont_applied (x : SymbolTreeInput) (m : SymbolTreeModel) (s : Ctrl)
    (h : s.input = some x) :
    (setInputCont x m s).treeTitle = some x.title ∧
    (setInputCont x m s).treeMessage = m.message ∧
    (setInputCont x m s).sessionDisposable
      = some { provider := m.provider, includesProviderDispose := m.providerHasDispose } := by
  unfold setInputCont
  rw [if_neg (by simp [h])]
  dsimp only
  refine ⟨?_, ?_, rfl⟩ <;>
  · split
    · split <;> rfl
    · rfl

theorem clearInput_ctxIsActive (s : Ctrl) :
    (clearInput s).ctxIsActive = s.ctxIsActive := by
  unfold clearInput
  dsimp only
  split <;> rfl

/-- Claim C1: last-writer-wins race guard.  After `setInput X` then
`setInput Y` (before X's resolution settles), X's resolution
continuation finds X is no longer the current input and changes nothing
— not the title, message, reveal log or session subscription — so title
and message reflect only Y; and the same holds when X's resolution
settles even after Y's has been applied. -/
theorem claim_C1_race_guard (x y : SymbolTreeInput) (mx my : SymbolTreeModel)
    (s : Ctrl) (hxy : x ≠ y) :
    setInputCont x mx (setInput y (setInput x s)) = setInput y (setInput x s) ∧
    (setInput y (setInput x s)).treeTitle = some y.title ∧
    (setInput y (setInput x s)).treeMessage = none ∧
    setInputCont x mx (setInputCont y my (setInput y (setInput x s)))
      = setInputCont y my (setInput y (setInput x s)) ∧
    (setInputCont y my (setInput y (setInput x s))).treeTitle = some y.title ∧
    (setInputCont y my (setInput y (setInput x s))).treeMessage = my.message := by
  have hy : (setInput y (setInput x s)).input = some y := setInput_input y _
  have hne : (setInput y (setInput x s)).input ≠ some x := by
    rw [hy]
    intro hcontra
    injection hcontra with hyx
    exact hxy hyx.symm
  have hy2 : (setInputCont y my (setInput y (setInput x s))).input = some y := by
    rw [setInputCont_input, hy]
  have hne2 : (setInputCont y my (setInput y (setInput x s))).input ≠ some x := by
    rw [hy2]
    intro hcontra
    injection hcontra with hyx
    exact hxy hyx.symm
  have happ := setInputCont_applied y my (setInput y (setInput x s)) hy
  exact ⟨setInputCont_stale x mx _ hne, setInput_treeTitle y _, setInput_treeMessage y _,
    setInputCont_stale x mx _ hne2, happ.1, happ.2.1⟩

/-- Witness for claim C1 at concrete inputs. -/
theorem claim_C1_race_guard_witness :
    inputA ≠ inputB ∧
    setInputCont inputA modelA (setInput inputB (setInput inputA initCtrl))
      = setInput inputB (setInput inputA initCtrl) ∧
    (setInput inputB (setInput inputA initCtrl)).treeTitle = some inputB.title ∧
    (setInputCont inputB modelB (setInput inputB (setInput inputA initCtrl))).treeMessage
      = modelB.message := by
  have h := claim_C1_race_guard inputA inputB modelA modelB initCtrl (by decide)
  exact ⟨by decide, h.1, h.2.1, h.2.2.2.2.2⟩

/-- No controller event sets the `isActive` context key back to
`false`: each step either leaves the key unchanged or sets it to
`true`. -/
theorem ctrlStep_ctxIsActive (s : Ctrl) (e : CtrlEvent) :
    (ctrlStep s e).ctxIsActive = s.ctxIsActive ∨
    (ctrlStep s e).ctxIsActive = some true := by
  cases e with
  | setInput x => exact Or.inr (setInput_ctxIsActive x s)
  | clearInput => exact Or.inl (clearInput_ctxIsActive s)
  | historyClear => exact Or.inl rfl
  | resolveModel x m => exact Or.inl (setInputCont_ctxIsActive x m s)
  | histSettle pid outcome => exact Or.inl rfl
  | delegateSettleOk p => exact Or.inl rfl
  | delegateSettleErr p => exact Or.inl rfl

/-- Claim C10: `setInput` sets the `isActive` context key to `true`;
`clearInput` leaves it unchanged (it only clears `hasResult`); and no
sequence of controller events after a `setInput` ever resets it, so
once any input has been set the key stays `true` for the controller's
lifetime. -/
theorem claim_C10_isActive_never_reset (x : SymbolTreeInput) (s : Ctrl)
    (tr : List CtrlEvent) :
    (setInput x s).ctxIsActive = some true ∧
    (clearInput s).ctxIsActive = s.ctxIsActive ∧
    (tr.foldl ctrlStep (setInput x s)).ctxIsActive = some true := by
  refine ⟨setInput_ctxIsActive x s, clearInput_ctxIsActive s, ?_⟩
  have key : ∀ (tr : List CtrlEvent) (s : Ctrl), s.ctxIsActive = some true →
      (tr.foldl ctrlStep s).ctxIsActive = some true := by
    intro tr
    induction tr with
    | nil => intro s hs; exact hs
    | cons e tr ih =>
      intro s hs
      rw [List.foldl_cons]
      refine ih _ ?_
      rcases ctrlStep_ctxIsActive s e with h | h
      · rw [h]; exact hs
      · exact h
  exact key tr (setInput x s) (setInput_ctxIsActive x s)

/-- Claim C5, evaluated on the code: after `setInput(X)`, X's
resolution settling (which installs the session disposable), and then
`clearInput()`, the session disposable has not been disposed —
`clearInput` never touches `_sessionDisposable` — while the next
`setInput` does dispose it.  This contradicts the claim that disposal
happens synchronously at the start of the next `clearInput()` call. -/
theorem claim_C5_clearInput_no_dispose :
    (setInputCont inputA modelA (setInput inputA initCtrl)).sessionDisposable
      = some { provider := 7, includesProviderDispose := true } ∧
    (clearInput (setInputCont inputA modelA (setInput inputA initCtrl))).sessionDisposable
      = some { provider := 7, includesProviderDispose := true } ∧
    (clearInput (setInputCont inputA modelA (setInput inputA initCtrl))).disposedSessions
      = [] ∧
    (setInput inputB (clearInput (setInputCont inputA modelA (setInput inputA initCtrl)))).disposedSessions
      = [{ provider := 7, includesProviderDispose := true }] := by
  refine ⟨?_, ?_, ?_, ?_⟩ <;> rfl

/-- Claim C6: `clearInput` postconditions — the input is dropped, the
`hasResult` key is set `false`, the title is reset to the default
label, the delegate is repointed at a fresh promise of the History
Store; the final message is the empty-state string when the history is
empty and unset otherwise. -/
theorem claim_C6_clearInput_post (s : Ctrl) :
    getInput (clearInput s) = none ∧
    (clearInput s).ctxHasResult = some false ∧
    (clearInput s).treeTitle = some "References" ∧
    (clearInput s).delegate.provider = some (s.nextId, .history) ∧
    (historySize s.history = 0 → (clearInput s).treeMessage = some "Nothing to show") ∧
    (historySize s.history ≠ 0 → (clearInput s).treeMessage = none) := by
  unfold clearInput getInput
  dsimp only
  constructor
  · split <;> rfl
  constructor
  · split <;> rfl
  constructor
  · split <;> rfl
  constructor
  · split <;> rfl
  constructor
  · intro h
    rw [if_pos h]
  · intro h
    rw [if_neg h]

/-- Witness for claim C6: with an empty history `clearInput` shows the
empty-state message; with one history entry the message stays unset. -/
theorem claim_C6_clearInput_post_witness :
    getInput (clearInput initCtrl) = none ∧
    (clearInput initCtrl).treeMessage = some "Nothing to show" ∧
    (clearInput (setInput inputA initCtrl)).treeMessage = none := by
  refine ⟨(claim_C6_clearInput_post initCtrl).1,
    (claim_C6_clearInput_post initCtrl).2.2.2.2.1 rfl,
    (claim_C6_clearInput_post (setInput inputA initCtrl)).2.2.2.2.2 (by decide)⟩

/-! ## History theorems -/

theorem historyDelete_sublist (key : String) (h : HistoryMap) :
    (historyDelete key h).Sublist h := by
  induction h with
  | nil => exact List.Sublist.refl _
  | cons kv rest ih =>
    simp only [historyDelete]
    split
    · exact ih.cons _
    · exact ih.cons₂ _

theorem not_mem_keys_historyDelete (key : String) (h : HistoryMap) :
    key ∉ (historyDelete key h).map Prod.fst := by
  induction h with
  | nil => simp [historyDelete]
  | cons kv rest ih =>
    simp only [historyDelete]
    split
    · exact ih
    · rename_i hne
      simp only [List.map_cons, List.mem_cons, not_or]
      exact ⟨fun hh => hne hh.symm, ih⟩

theorem historyAddEntry_keys_nodup (key : String) (e : HEntry) (h : HistoryMap)
    (hn : (h.map Prod.fst).Nodup) :
    ((historyAddEntry key e h).map Prod.fst).Nodup := by
  unfold historyAddEntry
  rw [List.map_append]
  refine List.Nodup.append ?_ (by simp) ?_
  · exact hn.sublist ((historyDelete_sublist key h).map Prod.fst)
  · intro a ha hb
    simp only [List.map_cons, List.map_nil, List.mem_singleton] at hb
    subst hb
    exact not_mem_keys_historyDelete _ h ha

theorem historyAddAll_keys_nodup (adds : List (String × HEntry)) (h : HistoryMap)
    (hn : (h.map Prod.fst).Nodup) :
    ((historyAddAll h adds).map Prod.fst).Nodup := by
  induction adds generalizing h with
  | nil => exact hn
  | cons ke adds ih =>
    exact ih _ (historyAddEntry_keys_nodup ke.1 ke.2 h hn)

/-- Claim C2: the history map never holds two entries with one hash key
(re-adding a present key removes the stale entry first, then appends as
newest), and `getChildren` lists the entries most-recently-added first;
in particular adding hashes `[a, b, a, c]` (with settled items
`i1..i4`) leaves size 3, key order `[b, a, c]`, and `getChildren`
yielding `[i4, i3, i2]` — the `[c, a, b]` order of the claim. -/
theorem claim_C2_history_dedup_mru (adds : List (String × HEntry))
    (a b c : String) (i1 i2 i3 i4 : HistoryItem) (p1 p2 p3 p4 : Nat)
    (hab : a ≠ b) (hac : a ≠ c) (hbc : b ≠ c) :
    ((historyAddAll [] adds).map Prod.fst).Nodup ∧
    (historyAddAll [] [(a, ⟨p1, .fulfilled i1⟩), (b, ⟨p2, .fulfilled i2⟩),
        (a, ⟨p3, .fulfilled i3⟩), (c, ⟨p4, .fulfilled i4⟩)]).map Prod.fst = [b, a, c] ∧
    historySize (historyAddAll [] [(a, ⟨p1, .fulfilled i1⟩), (b, ⟨p2, .fulfilled i2⟩),
        (a, ⟨p3, .fulfilled i3⟩), (c, ⟨p4, .fulfilled i4⟩)]) = 3 ∧
    historyGetChildren (historyAddAll [] [(a, ⟨p1, .fulfilled i1⟩), (b, ⟨p2, .fulfilled i2⟩),
        (a, ⟨p3, .fulfilled i3⟩), (c, ⟨p4, .fulfilled i4⟩)])
      = .fulfilled [i4, i3, i2] := by
  have hrun : historyAddAll [] [(a, (⟨p1, .fulfilled i1⟩ : HEntry)),
      (b, ⟨p2, .fulfilled i2⟩), (a, ⟨p3, .fulfilled i3⟩), (c, ⟨p4, .fulfilled i4⟩)]
      = [(b, ⟨p2, .fulfilled i2⟩), (a, ⟨p3, .fulfilled i3⟩), (c, ⟨p4, .fulfilled i4⟩)] := by
    simp [historyAddAll, historyAddEntry, historyDelete,
      hab, hac, hbc, Ne.symm hab, Ne.symm hac, Ne.symm hbc]
  refine ⟨historyAddAll_keys_nodup adds [] (by simp), ?_, ?_, ?_⟩
  · rw [hrun]; rfl
  · rw [hrun]; rfl
  · rw [hrun]
    simp [historyGetChildren, promiseAll, HEntryState.isRejected, HEntryState.isPending,
      HEntryState.item?]

/-- Witness for claim C2 at concrete keys and items. -/
theorem claim_C2_history_dedup_mru_witness :
    "ha" ≠ "hb" ∧ "ha" ≠ "hc" ∧ "hb" ≠ "hc" ∧
    (historyAddAll []
        [("ha", ⟨0, .fulfilled (historyResolve docWs inputA)⟩),
         ("hb", ⟨1, .fulfilled (historyResolve docWs inputB)⟩),
         ("ha", ⟨2, .fulfilled (historyResolve docWs inputA)⟩),
         ("hc", ⟨3, .fulfilled (historyResolve docWs inputB)⟩)]).map Prod.fst
      = ["hb", "ha", "hc"] := by
  have h := claim_C2_history_dedup_mru []
    "ha" "hb" "hc"
    (historyResolve docWs inputA) (historyResolve docWs inputB)
    (historyResolve docWs inputA) (historyResolve docWs inputB)
    0 1 2 3 (by decide) (by decide) (by decide)
  exact ⟨by decide, by decide, by decide, h.2.1⟩

theorem mem_historyDelete_of_ne (key : String) (kv : String × HEntry) (h : HistoryMap)
    (hmem : kv ∈ h) (hne : kv.1 ≠ key) :
    kv ∈ historyDelete key h := by
  induction h with
  | nil => cases hmem
  | cons hd rest ih =>
    simp only [historyDelete]
    rcases List.mem_cons.mp hmem with heq | hmem'
    · subst heq
      rw [if_neg hne]
      exact List.mem_cons_self _ _
    · split
      · exact ih hmem'
      · exact List.mem_cons_of_mem _ (ih hmem')

/-- The `Promise.all` over the history values rejects as soon as one value
is rejected. -/
theorem historyGetChildren_rejected_of_mem (h : HistoryMap) (kv : String × HEntry)
    (hmem : kv ∈ h) (hrej : kv.2.state = .rejected) :
    historyGetChildren h = .rejected := by
  unfold historyGetChildren promiseAll
  rw [if_pos]
  rw [List.any_eq_true]
  refine ⟨kv.2, ?_, by rw [hrej]; rfl⟩
  rw [List.mem_reverse]
  exact List.mem_map.mpr ⟨kv, hmem, rfl⟩

/-- Claim C9: a rejected history entry stays in the map (an `add` under
a different key keeps it), still counts toward `size`, and makes every
`getChildren()` of the store return a rejected promise, so the whole
history list yields nothing while even one entry is rejected. -/
theorem claim_C9_rejected_entry_poisons (h : HistoryMap) (k kn : String)
    (e en : HEntry) (hmem : (k, e) ∈ h) (hrej : e.state = .rejected) (hk : kn ≠ k) :
    historyGetChildren h = .rejected ∧
    0 < historySize h ∧
    (k, e) ∈ historyAddEntry kn en h ∧
    historyGetChildren (historyAddEntry kn en h) = .rejected := by
  have hmem2 : (k, e) ∈ historyAddEntry kn en h := by
    unfold historyAddEntry
    exact List.mem_append_left _ (mem_historyDelete_of_ne kn (k, e) h hmem (Ne.symm hk))
  refine ⟨historyGetChildren_rejected_of_mem h (k, e) hmem hrej, ?_, hmem2,
    historyGetChildren_rejected_of_mem _ (k, e) hmem2 hrej⟩
  exact List.length_pos.mpr (List.ne_nil_of_mem hmem)

/-- Witness for claim C9 at a concrete one-entry history. -/
theorem claim_C9_rejected_entry_poisons_witness :
    historyGetChildren [("ha", (⟨0, .rejected⟩ : HEntry))] = .rejected ∧
    historyGetChildren (historyAddEntry "hb" ⟨1, .pending⟩
      [("ha", (⟨0, .rejected⟩ : HEntry))]) = .rejected := by
  have h := claim_C9_rejected_entry_poisons [("ha", (⟨0, .rejected⟩ : HEntry))]
    "ha" "hb" ⟨0, .rejected⟩ ⟨1, .pending⟩ (by decide) rfl (by decide)
  exact ⟨h.1, h.2.2.2⟩

/-- Claim C7: the word stored on a `HistoryItem` follows the fallback
chain — the text of the default word range when one exists, else the
text of the non-whitespace-run range when one exists, else the literal
placeholder `"???"`. -/
theorem claim_C7_word_fallback (doc : TextDocument) (x : SymbolTreeInput) :
    (∀ r, doc.getWordRangeAtPosition x.position = some r →
      (historyResolve doc x).word = doc.getText r) ∧
    (doc.getWordRangeAtPosition x.position = none →
      ∀ r, doc.getWordRangeAtPositionNonWs x.position = some r →
        (historyResolve doc x).word = doc.getText r) ∧
    (doc.getWordRangeAtPosition x.position = none →
      doc.getWordRangeAtPositionNonWs x.position = none →
      (historyResolve doc x).word = "???") := by
  refine ⟨?_, ?_, ?_⟩
  · intro r hr
    simp [historyResolve, histWord, hr]
  · intro hn r hr
    simp [historyResolve, histWord, hn, hr]
  · intro hn hnr
    simp [historyResolve, histWord, hn, hnr]

/-- Witness for claim C7 on the three concrete documents. -/
theorem claim_C7_word_fallback_witness :
    (historyResolve docWord inputA).word = "foo" ∧
    (historyResolve docRun inputA).word = "a+b" ∧
    (historyResolve docWs inputA).word = "???" := by
  exact ⟨(claim_C7_word_fallback docWord inputA).1 ((0, 0), (0, 3)) rfl,
    (claim_C7_word_fallback docRun inputA).2.1 rfl ((0, 0), (0, 3)) rfl,
    (claim_C7_word_fallback docWs inputA).2.2 rfl rfl⟩

end RefsView
